import Mathlib

/-!
Verification of the calculator core of `src/App.tsx`: the reducer
`calculatorReducer` over `CalculatorState`, the helper `calculate`, and the
initial state.  JavaScript numbers are modelled as exact rationals in a
normalized numerator/denominator representation (`JSNumber`): `parseFloat`
becomes a partial parser returning `Option JSNumber` (with `none` standing
for `NaN`), and `Number.prototype.toString` becomes `numToString`, which
agrees with JavaScript on integers (the only values the concrete theorems
below evaluate) and prints a truncated decimal expansion otherwise.
Floating-point rounding, overflow to `Infinity`, and the `"Infinity"`
spelling accepted by `parseFloat` are outside this model; no claim below
depends on them.  Strings are handled through their character lists.
-/

namespace AfameCalc

/-- An exact rational standing in for a JavaScript number: numerator and
positive denominator, kept normalized (coprime, denominator nonzero) by the
smart constructor `JSNumber.make`. -/
structure JSNumber where
  num : Int
  den : Nat
deriving DecidableEq, Repr

/-- Build the rational `n / d`, normalized (sign on the numerator, fraction
reduced); `d = 0` never occurs at call sites but is mapped to `0` so the
constructor is total. -/
def JSNumber.make (n d : Int) : JSNumber :=
  if d = 0 then ⟨0, 1⟩
  else
    let n1 := if d < 0 then -n else n
    let d1 := d.natAbs
    let g := n1.natAbs.gcd d1
    ⟨n1.tdiv (g : Int), d1 / g⟩

/-- Exact addition. -/
def JSNumber.add (a b : JSNumber) : JSNumber :=
  JSNumber.make (a.num * (b.den : Int) + b.num * (a.den : Int)) ((a.den : Int) * (b.den : Int))

/-- Exact subtraction. -/
def JSNumber.sub (a b : JSNumber) : JSNumber :=
  JSNumber.make (a.num * (b.den : Int) - b.num * (a.den : Int)) ((a.den : Int) * (b.den : Int))

/-- Exact multiplication. -/
def JSNumber.mul (a b : JSNumber) : JSNumber :=
  JSNumber.make (a.num * b.num) ((a.den : Int) * (b.den : Int))

/-- Exact division (the division-by-zero case is guarded before this is
reached, as in the source). -/
def JSNumber.div (a b : JSNumber) : JSNumber :=
  JSNumber.make (a.num * (b.den : Int)) (b.num * (a.den : Int))

/-- State of the calculator, mirroring the `CalculatorState` type of
`src/App.tsx` (`operation : string | null` becomes `Option String`). -/
structure CalculatorState where
  currentValue : String
  previousValue : String
  operation : Option String
  overwrite : Bool
deriving DecidableEq, Repr

/-- Actions, mirroring the `CalculatorAction` union type of `src/App.tsx`.
The payloads are arbitrary strings, as in the TypeScript type. -/
inductive CalculatorAction where
  | addDigit (payload : String)
  | chooseOperation (payload : String)
  | clear
  | delete
  | evaluate
deriving DecidableEq, Repr

/-- The initial state of `src/App.tsx` (lines 20-25). -/
def initialState : CalculatorState :=
  { currentValue := "0", previousValue := "", operation := none, overwrite := true }

/-- Value of a list of decimal digit characters. -/
def digitsToNat (ds : List Char) : Nat :=
  ds.foldl (fun acc c => acc * 10 + (c.toNat - 48)) 0

/-- Apply a decimal exponent suffix (everything after the `e`/`E`) to a
mantissa; an empty exponent is ignored, as `parseFloat` keeps the longest
valid numeric prefix. -/
def applyExponent (mantissa : JSNumber) (rest : List Char) : JSNumber :=
  let sgnrest : Bool × List Char :=
    match rest with
    | '-' :: r => (true, r)
    | '+' :: r => (false, r)
    | _ => (false, rest)
  let ed := sgnrest.2.takeWhile (fun c => c.isDigit)
  if ed = [] then mantissa
  else if sgnrest.1 then mantissa.div ⟨(10 : Int) ^ digitsToNat ed, 1⟩
  else mantissa.mul ⟨(10 : Int) ^ digitsToNat ed, 1⟩

/-- Model of JavaScript `parseFloat` on the relevant fragment: skip leading
whitespace, optional sign, longest run of digits with an optional fraction
part and an optional decimal exponent; `none` models `NaN` (no digit could
be consumed).  The `"Infinity"` spelling is not modelled. -/
def parseFloat (str : String) : Option JSNumber :=
  let cs := str.data.dropWhile (fun c => c.isWhitespace)
  let sgncs : Int × List Char :=
    match cs with
    | '-' :: rest => (-1, rest)
    | '+' :: rest => (1, rest)
    | _ => (1, cs)
  let sgn := sgncs.1
  let cs1 := sgncs.2
  let ip := cs1.takeWhile (fun c => c.isDigit)
  let cs2 := cs1.dropWhile (fun c => c.isDigit)
  let fpcs : List Char × List Char :=
    match cs2 with
    | '.' :: rest => (rest.takeWhile (fun c => c.isDigit), rest.dropWhile (fun c => c.isDigit))
    | _ => ([], cs2)
  let fp := fpcs.1
  let cs3 := fpcs.2
  if ip = [] ∧ fp = [] then none
  else
    let mantissa : JSNumber :=
      JSNumber.make (sgn * ((digitsToNat ip : Int) * (10 : Int) ^ fp.length + (digitsToNat fp : Int)))
        ((10 : Int) ^ fp.length)
    match cs3 with
    | 'e' :: rest => some (applyExponent mantissa rest)
    | 'E' :: rest => some (applyExponent mantissa rest)
    | _ => some mantissa

/-- Fraction digits of a nonnegative rational in `[0,1)`, by repeated
multiplication by ten, up to the given fuel (17, matching the maximum
number of significant digits JavaScript prints). -/
def fracDigits : JSNumber → Nat → List Char
  | _, 0 => []
  | q, n + 1 =>
    if q.num = 0 then []
    else
      let q10 := q.mul ⟨10, 1⟩
      let d : Nat := q10.num.toNat / q10.den
      Char.ofNat (48 + d) :: fracDigits (q10.sub ⟨(d : Int), 1⟩) n

/-- Model of JavaScript `Number.prototype.toString` on the rational model:
exact on integers (the standard decimal representation), and a decimal
expansion truncated to 17 fraction digits otherwise. -/
def numToString (q : JSNumber) : String :=
  if q.den = 1 then toString q.num
  else
    let a : JSNumber := ⟨(q.num.natAbs : Int), q.den⟩
    let ip : Nat := a.num.toNat / a.den
    (if q.num < 0 then "-" else "") ++ toString ip ++ "." ++
      String.mk (fracDigits (a.sub ⟨(ip : Int), 1⟩) 17)

/-- JavaScript truthiness of a `string | null` value: `null` and the empty
string are falsy (`if (state.operation)` in the reducer). -/
def truthy : Option String → Bool
  | none => false
  | some s => !(s = "")

/-- The helper `calculate` of `src/App.tsx` (lines 122-148): parse both
operands, return `"0"` if either is `NaN`, dispatch on the operation string
(a `switch` whose default, reached also for `null`, returns `"0"`), and
return `"Error"` on division when the current operand equals zero. -/
def calculate (state : CalculatorState) : String :=
  match parseFloat state.previousValue, parseFloat state.currentValue with
  | some prev, some current =>
    match state.operation with
    | none => "0"
    | some op =>
      if op = "+" then numToString (prev.add current)
      else if op = "-" then numToString (prev.sub current)
      else if op = "×" then numToString (prev.mul current)
      else if op = "÷" then
        if current.num = 0 then "Error" else numToString (prev.div current)
      else "0"
  | _, _ => "0"

/-- The reducer `calculatorReducer` of `src/App.tsx` (lines 28-119),
transcribed case by case.  `includes('.')` is read on the character list,
`length` is the character count, and `slice(0, -1)` is `dropLast`. -/
def calculatorReducer (state : CalculatorState) (action : CalculatorAction) :
    CalculatorState :=
  match action with
  | .addDigit payload =>
    if state.overwrite then
      { state with currentValue := payload, overwrite := false }
    else if payload = "." ∧ state.currentValue.data.contains '.' then
      state
    else
      { state with
        currentValue :=
          if state.currentValue = "0" ∧ payload ≠ "." then payload
          else state.currentValue ++ payload }
  | .chooseOperation payload =>
    if state.currentValue = "0" ∧ state.previousValue = "" then
      state
    else if state.previousValue = "" then
      { state with
        operation := some payload
        previousValue := state.currentValue
        currentValue := "0"
        overwrite := true }
    else if truthy state.operation then
      { state with
        previousValue := calculate state
        operation := some payload
        currentValue := "0"
        overwrite := true }
    else
      state
  | .clear => initialState
  | .delete =>
    if state.overwrite then
      { state with currentValue := "0", overwrite := true }
    else if state.currentValue.length = 1 then
      { state with currentValue := "0", overwrite := true }
    else
      { state with currentValue := String.mk state.currentValue.data.dropLast }
  | .evaluate =>
    if state.operation = none ∨ state.previousValue = "" ∨ state.currentValue = "0" then
      state
    else
      { state with
        previousValue := ""
        operation := none
        currentValue := calculate state
        overwrite := true }

/-- The action payloads the application actually dispatches (buttons and the
keyboard handler of `src/App.tsx`): the ten digits and the decimal point for
`ADD_DIGIT`, the four operator symbols for `CHOOSE_OPERATION`. -/
def dispatchable : CalculatorAction → Bool
  | .addDigit d => decide (d ∈ (["0", "1", "2", "3", "4", "5", "6", "7", "8", "9", "."] : List String))
  | .chooseOperation op => decide (op ∈ (["+", "-", "×", "÷"] : List String))
  | .clear => true
  | .delete => true
  | .evaluate => true

/-- States reachable from the initial state by dispatched events. -/
inductive Reachable : CalculatorState → Prop where
  | init : Reachable initialState
  | step {s : CalculatorState} {a : CalculatorAction} :
      Reachable s → dispatchable a = true → Reachable (calculatorReducer s a)

/-- A partial numeric entry as built up by `ADD_DIGIT` and `DELETE`:
nonempty, only digits and decimal points, and at most one decimal point. -/
def isEntry (s : String) : Prop :=
  s.data ≠ [] ∧ (∀ c ∈ s.data, c.isDigit = true ∨ c = '.') ∧ s.data.count '.' ≤ 1

instance (s : String) : Decidable (isEntry s) := by
  unfold isEntry
  infer_instance

/-- A string the machine can hold in a value field: the error sentinel, a
partial numeric entry, or the rendering of a computed number. -/
def isResultish (s : String) : Prop :=
  s = "Error" ∨ isEntry s ∨ ∃ q : JSNumber, numToString q = s

/-- Modelled from the spec: a "valid numeric literal string" in the sense of
the data-model invariant (section 3) — an optional minus sign followed by
digits and at most one decimal point, with at least one digit.  This
predicate follows the spec's words, for comparison with what the code
maintains. -/
def isValidNumericLiteral (s : String) : Bool :=
  let cs :=
    match s.data with
    | '-' :: r => r
    | r => r
  !cs.isEmpty && cs.any (fun c => c.isDigit) && cs.all (fun c => c.isDigit || c = '.') &&
    decide (cs.count '.' ≤ 1)

/-- The documented no-op conditions of the reducer: the duplicate-point
guard of `ADD_DIGIT`, the nothing-entered and no-pending-operation guards
of `CHOOSE_OPERATION`, and the guard of `EVALUATE`. -/
def isNoOp (s : CalculatorState) (a : CalculatorAction) : Prop :=
  match a with
  | .addDigit d =>
      s.overwrite = false ∧ d = "." ∧ s.currentValue.data.contains '.' = true
  | .chooseOperation _ =>
      (s.currentValue = "0" ∧ s.previousValue = "") ∨
      (s.previousValue ≠ "" ∧ truthy s.operation = false)
  | .clear => False
  | .delete => False
  | .evaluate => s.operation = none ∨ s.previousValue = "" ∨ s.currentValue = "0"

/-- The inductive invariant of the state machine, strengthened so that it is
preserved by every dispatched step: both value fields hold machine strings,
and whenever `overwrite` is off the current value is a partial entry (only
such values are ever extended character by character). -/
def Inv (s : CalculatorState) : Prop :=
  isResultish s.currentValue ∧
  (s.overwrite = false → isEntry s.currentValue) ∧
  (s.previousValue = "" ∨ isResultish s.previousValue)

/-- Every value `calculate` returns is `"0"`, `"Error"`, or the rendering of
a number. -/
lemma calculate_mem (s : CalculatorState) :
    calculate s = "0" ∨ calculate s = "Error" ∨ ∃ q, numToString q = calculate s := by
  unfold calculate
  cases hp : parseFloat s.previousValue with
  | none => simp
  | some prev =>
    cases hc : parseFloat s.currentValue with
    | none => simp
    | some current =>
      cases ho : s.operation with
      | none => simp
      | some op =>
        simp only
        split_ifs <;> simp

/-- Each dispatched digit payload is itself a partial entry. -/
lemma isEntry_payload {d : String}
    (hd : d ∈ (["0", "1", "2", "3", "4", "5", "6", "7", "8", "9", "."] : List String)) :
    isEntry d := by
  fin_cases hd <;> decide

/-- Appending a dispatched digit payload to a partial entry yields a partial
entry, provided a point is only appended when none is present yet. -/
lemma isEntry_append {s d : String} (hs : isEntry s)
    (hd : d ∈ (["0", "1", "2", "3", "4", "5", "6", "7", "8", "9", "."] : List String))
    (hdot : d = "." → s.data.contains '.' = false) :
    isEntry (s ++ d) := by
  obtain ⟨hne, hall, hcount⟩ := hs
  refine ⟨?_, ?_, ?_⟩
  · simp [String.data_append, hne]
  · intro c hc
    rw [String.data_append, List.mem_append] at hc
    rcases hc with h | h
    · exact hall c h
    · have hd2 := isEntry_payload hd
      exact hd2.2.1 c h
  · rw [String.data_append, List.count_append]
    by_cases h : d = "."
    · have h0 : s.data.count '.' = 0 := by
        rw [List.count_eq_zero]
        intro hmem
        have h2 : s.data.contains '.' = true := List.elem_iff.2 hmem
        rw [hdot h] at h2
        exact Bool.false_ne_true h2
      subst h
      simp [h0]
    · have h1 : d.data.count '.' = 0 := by
        fin_cases hd <;> first | decide | exact absurd rfl h
      omega

/-- Dropping the last character of a partial entry of length at least two
yields a partial entry. -/
lemma isEntry_dropLast {s : String} (hs : isEntry s) (hlen : s.data.length ≠ 1) :
    isEntry (String.mk s.data.dropLast) := by
  obtain ⟨hne, hall, hcount⟩ := hs
  have hlen2 : 2 ≤ s.data.length := by
    cases h : s.data.length with
    | zero => exact absurd (List.eq_nil_of_length_eq_zero h) hne
    | succ n =>
      cases n with
      | zero => exact absurd h hlen
      | succ m => omega
  refine ⟨?_, ?_, ?_⟩
  · intro h
    have h3 : s.data.dropLast = [] := h
    have h2 : s.data.dropLast.length = 0 := by rw [h3]; rfl
    rw [List.length_dropLast] at h2
    omega
  · intro c hc
    exact hall c (List.dropLast_subset s.data hc)
  · exact le_trans ((List.dropLast_sublist s.data).count_le '.') hcount

/-- The string `"0"` is a partial entry. -/
lemma isEntry_zero : isEntry "0" := by decide

/-- The invariant `Inv` is preserved by every dispatched step. -/
lemma inv_step {s : CalculatorState} {a : CalculatorAction}
    (hs : Inv s) (ha : dispatchable a = true) : Inv (calculatorReducer s a) := by
  obtain ⟨hcur, how, hprev⟩ := hs
  cases a with
  | addDigit d =>
    have hd : d ∈ (["0", "1", "2", "3", "4", "5", "6", "7", "8", "9", "."] : List String) :=
      of_decide_eq_true ha
    simp only [calculatorReducer]
    split_ifs with h1 h2 h3
    · exact ⟨Or.inr (Or.inl (isEntry_payload hd)), fun _ => isEntry_payload hd, hprev⟩
    · exact ⟨hcur, how, hprev⟩
    · exact ⟨Or.inr (Or.inl (isEntry_payload hd)), fun _ => isEntry_payload hd, hprev⟩
    · have hent : isEntry s.currentValue := how (by simp at h1; exact h1)
      have happ : isEntry (s.currentValue ++ d) := by
        apply isEntry_append hent hd
        intro hdd
        by_contra hcc
        exact h2 ⟨hdd, by simpa using hcc⟩
      exact ⟨Or.inr (Or.inl happ), fun _ => happ, hprev⟩
  | chooseOperation op =>
    simp only [calculatorReducer]
    split_ifs with h1 h2 h3
    · exact ⟨hcur, how, hprev⟩
    · exact ⟨Or.inr (Or.inl isEntry_zero), fun _ => isEntry_zero, Or.inr hcur⟩
    · refine ⟨Or.inr (Or.inl isEntry_zero), fun _ => isEntry_zero, Or.inr ?_⟩
      rcases calculate_mem s with h | h | ⟨q, hq⟩
      · rw [h]; exact Or.inr (Or.inl isEntry_zero)
      · rw [h]; exact Or.inl rfl
      · exact Or.inr (Or.inr ⟨q, hq⟩)
    · exact ⟨hcur, how, hprev⟩
  | clear =>
    exact ⟨Or.inr (Or.inl isEntry_zero), fun _ => isEntry_zero, Or.inl rfl⟩
  | delete =>
    simp only [calculatorReducer]
    split_ifs with h1 h2
    · exact ⟨Or.inr (Or.inl isEntry_zero), fun _ => isEntry_zero, hprev⟩
    · exact ⟨Or.inr (Or.inl isEntry_zero), fun _ => isEntry_zero, hprev⟩
    · have hent : isEntry s.currentValue := how (by simp at h1; exact h1)
      have hlen : s.currentValue.data.length ≠ 1 := h2
      have hdl := isEntry_dropLast hent hlen
      exact ⟨Or.inr (Or.inl hdl), fun _ => hdl, hprev⟩
  | evaluate =>
    simp only [calculatorReducer]
    split_ifs with h1
    · exact ⟨hcur, how, hprev⟩
    · refine ⟨?_, fun h => Bool.noConfusion h, Or.inl rfl⟩
      rcases calculate_mem s with h | h | ⟨q, hq⟩
      · rw [h]; exact Or.inr (Or.inl isEntry_zero)
      · rw [h]; exact Or.inl rfl
      · exact Or.inr (Or.inr ⟨q, hq⟩)

/-- Every reachable state satisfies the invariant. -/
lemma inv_reachable {s : CalculatorState} (h : Reachable s) : Inv s := by
  induction h with
  | init => exact ⟨Or.inr (Or.inl isEntry_zero), fun _ => isEntry_zero, Or.inl rfl⟩
  | step hr ha ih => exact inv_step ih ha

/-- C7: for every state, the Clear event yields exactly the initial state
(`currentValue = "0"`, `previousValue = ""`, no operation, `overwrite`),
and hence Clear is idempotent. -/
theorem clear_resets (s : CalculatorState) :
    calculatorReducer s .clear = initialState ∧
    calculatorReducer (calculatorReducer s .clear) .clear = calculatorReducer s .clear :=
  ⟨rfl, rfl⟩

/-- C3: Evaluate returns the state unchanged exactly when the operation is
absent, the previous value is empty, or the current value is `"0"`; in
every other state it produces the evaluator's result as the current value,
with the previous value cleared, the operation cleared, and overwrite set. -/
theorem evaluate_spec (s : CalculatorState) :
    (calculatorReducer s .evaluate = s ↔
      (s.operation = none ∨ s.previousValue = "" ∨ s.currentValue = "0")) ∧
    (¬(s.operation = none ∨ s.previousValue = "" ∨ s.currentValue = "0") →
      calculatorReducer s .evaluate =
        { currentValue := calculate s, previousValue := "", operation := none,
          overwrite := true }) := by
  by_cases hg : s.operation = none ∨ s.previousValue = "" ∨ s.currentValue = "0"
  · refine ⟨⟨fun _ => hg, fun _ => ?_⟩, fun h => absurd hg h⟩
    simp only [calculatorReducer, if_pos hg]
  · have hred : calculatorReducer s .evaluate =
        { currentValue := calculate s, previousValue := "", operation := none,
          overwrite := true } := by
      simp only [calculatorReducer, if_neg hg]
    refine ⟨⟨fun he => ?_, fun h => absurd h hg⟩, fun _ => hred⟩
    exfalso
    have hpv : (calculatorReducer s .evaluate).previousValue = "" := by rw [hred]
    rw [he] at hpv
    push_neg at hg
    exact hg.2.1 hpv

/-- Witness for `evaluate_spec`: in the state `3 + 2` pending, Evaluate is
not a no-op and produces `"5"` with the pending operation cleared. -/
theorem evaluate_spec_witness :
    calculatorReducer ⟨"3", "2", some "+", false⟩ .evaluate = ⟨"5", "", none, true⟩ :=
  ((evaluate_spec ⟨"3", "2", some "+", false⟩).2 (by decide)).trans (by decide)

/-- C4: the sequence Digit 2, Choose +, Digit 3, Choose ×, Digit 4, Evaluate
yields `"20"`: the chained operations fold left-to-right, with no
precedence. -/
theorem chaining_left_fold :
    (List.foldl calculatorReducer initialState
      [.addDigit "2", .chooseOperation "+", .addDigit "3", .chooseOperation "×",
        .addDigit "4", .evaluate]).currentValue = "20" := by
  decide

/-- C1 counterexample: the sequence Digit 5, Choose ÷, Digit 0, Evaluate
does not yield `"Error"`: the Evaluate guard fires on `currentValue = "0"`
and the final current value is `"0"`. -/
theorem div_zero_sequence_not_error :
    (List.foldl calculatorReducer initialState
      [.addDigit "5", .chooseOperation "÷", .addDigit "0", .evaluate]).currentValue ≠
        "Error" ∧
    (List.foldl calculatorReducer initialState
      [.addDigit "5", .chooseOperation "÷", .addDigit "0", .evaluate]).currentValue = "0" := by
  decide

/-- C1 amended: the sequence Digit 5, Choose ÷, Digit 0, Evaluate leaves the
state unchanged by the final Evaluate (whose guard sees `currentValue =
"0"`): the result holds `currentValue = "0"` with the division still
pending. -/
theorem div_zero_sequence_noop :
    List.foldl calculatorReducer initialState
      [.addDigit "5", .chooseOperation "÷", .addDigit "0", .evaluate] =
      { currentValue := "0", previousValue := "5", operation := some "÷",
        overwrite := false } := by
  decide

/-- C6: the transition function is a total function on states and actions —
it always yields a fully defined state — and on every documented no-op
condition it returns the input state unchanged. -/
theorem transition_total_noop :
    (∀ (s : CalculatorState) (a : CalculatorAction), ∃ t, calculatorReducer s a = t) ∧
    (∀ (s : CalculatorState) (a : CalculatorAction), isNoOp s a → calculatorReducer s a = s) := by
  refine ⟨fun s a => ⟨_, rfl⟩, fun s a h => ?_⟩
  cases a with
  | addDigit d =>
    obtain ⟨h1, h2, h3⟩ := h
    have hc1 : ¬(s.overwrite = true) := by rw [h1]; exact Bool.false_ne_true
    simp only [calculatorReducer, if_neg hc1, if_pos (And.intro h2 h3)]
  | chooseOperation op =>
    rcases h with ⟨h1, h2⟩ | ⟨h1, h2⟩
    · simp only [calculatorReducer, if_pos (And.intro h1 h2)]
    · have hc1 : ¬(s.currentValue = "0" ∧ s.previousValue = "") := fun hc => h1 hc.2
      have hc3 : ¬(truthy s.operation = true) := by rw [h2]; exact Bool.false_ne_true
      simp only [calculatorReducer, if_neg hc1, if_neg h1, if_neg hc3]
  | clear => cases h
  | delete => cases h
  | evaluate =>
    have h2 : s.operation = none ∨ s.previousValue = "" ∨ s.currentValue = "0" := h
    simp only [calculatorReducer]
    rw [if_pos h2]

/-- Witness for `transition_total_noop`: Evaluate in the initial state (no
operation pending) is a no-op. -/
theorem transition_total_noop_witness :
    calculatorReducer initialState .evaluate = initialState :=
  transition_total_noop.2 initialState .evaluate (Or.inl rfl)

/-- C9: with overwrite off, Digit "." is a no-op whenever the current value
already contains a decimal point; consequently Digit 1, Digit ., Digit .,
Digit 2 from the initial state yields `"1.2"`. -/
theorem duplicate_point_guard :
    (∀ s : CalculatorState, s.overwrite = false →
      s.currentValue.data.contains '.' = true →
      calculatorReducer s (.addDigit ".") = s) ∧
    (List.foldl calculatorReducer initialState
      [.addDigit "1", .addDigit ".", .addDigit ".", .addDigit "2"]).currentValue = "1.2" := by
  constructor
  · intro s h1 h2
    have hc1 : ¬(s.overwrite = true) := by rw [h1]; exact Bool.false_ne_true
    simp only [calculatorReducer, if_neg hc1]
    simp [h2]
    intro hmem
    exact absurd (List.elem_iff.1 h2) hmem
  · decide

/-- Witness for `duplicate_point_guard`: a second point after `"1."` is
rejected. -/
theorem duplicate_point_guard_witness :
    calculatorReducer ⟨"1.", "", none, false⟩ (.addDigit ".") = ⟨"1.", "", none, false⟩ :=
  duplicate_point_guard.1 ⟨"1.", "", none, false⟩ rfl (by decide)

/-- C10: Delete resets the current value to `"0"` with overwrite set when
overwrite is on or the current value has exactly one character, and
otherwise removes exactly the last character; in particular Delete on the
initial state leaves `"0"`, and from `"12"` two Deletes give `"1"` then
`"0"` with overwrite set. -/
theorem delete_spec :
    (∀ s : CalculatorState,
      ((s.overwrite = true ∨ s.currentValue.length = 1) →
        calculatorReducer s .delete = { s with currentValue := "0", overwrite := true }) ∧
      (s.overwrite = false → s.currentValue.length ≠ 1 →
        calculatorReducer s .delete =
          { s with currentValue := String.mk s.currentValue.data.dropLast })) ∧
    (calculatorReducer initialState .delete).currentValue = "0" ∧
    calculatorReducer ⟨"12", "", none, false⟩ .delete = ⟨"1", "", none, false⟩ ∧
    calculatorReducer (calculatorReducer ⟨"12", "", none, false⟩ .delete) .delete =
      ⟨"0", "", none, true⟩ := by
  refine ⟨fun s => ⟨?_, ?_⟩, by decide, by decide, by decide⟩
  · intro h
    rcases h with h | h
    · simp only [calculatorReducer, if_pos h]
    · by_cases ho : s.overwrite = true
      · simp only [calculatorReducer, if_pos ho]
      · simp only [calculatorReducer, if_neg ho, if_pos h]
  · intro h1 h2
    have hc1 : ¬(s.overwrite = true) := by rw [h1]; exact Bool.false_ne_true
    simp only [calculatorReducer, if_neg hc1, if_neg h2]

/-- Witness for `delete_spec`: Delete with overwrite on resets to `"0"`. -/
theorem delete_spec_witness :
    calculatorReducer ⟨"7", "", none, true⟩ .delete = ⟨"0", "", none, true⟩ :=
  (delete_spec.1 ⟨"7", "", none, true⟩).1 (Or.inl rfl)

/-- C8: the evaluator never raises — if either operand fails to parse it
returns `"0"`, and on division with a current operand equal to zero it
returns the literal `"Error"`. -/
theorem calculate_safe (s : CalculatorState) :
    ((parseFloat s.previousValue = none ∨ parseFloat s.currentValue = none) →
      calculate s = "0") ∧
    (∀ p c, parseFloat s.previousValue = some p → parseFloat s.currentValue = some c →
      c.num = 0 → s.operation = some "÷" → calculate s = "Error") := by
  constructor
  · intro h
    rcases h with h | h
    · cases hc : parseFloat s.currentValue <;> simp [calculate, h, hc]
    · cases hp : parseFloat s.previousValue <;> simp [calculate, hp, h]
  · intro p c hp hc hz ho
    simp only [calculate, hp, hc, ho]
    simp [hz]

/-- Witness for `calculate_safe`: an unparseable previous operand gives
`"0"`, and `1 ÷ 0` gives `"Error"`. -/
theorem calculate_safe_witness :
    calculate ⟨"0", "x", some "+", true⟩ = "0" ∧
    calculate ⟨"0", "1", some "÷", true⟩ = "Error" :=
  ⟨(calculate_safe ⟨"0", "x", some "+", true⟩).1 (Or.inl (by decide)),
    (calculate_safe ⟨"0", "1", some "÷", true⟩).2 ⟨1, 1⟩ ⟨0, 1⟩ (by decide) (by decide)
      rfl rfl⟩

/-- C5 counterexample: in the reachable state with `previousValue =
"Error"`, a pending `÷` and `currentValue = "0"`, choosing another
operation stores `"0"` — not `"Error"` — into the previous value, because
`"Error"` itself fails to parse. -/
theorem choose_op_error_counterexample :
    Reachable ⟨"0", "Error", some "÷", true⟩ ∧
    (⟨"0", "Error", some "÷", true⟩ : CalculatorState).previousValue ≠ "" ∧
    (⟨"0", "Error", some "÷", true⟩ : CalculatorState).operation = some "÷" ∧
    (⟨"0", "Error", some "÷", true⟩ : CalculatorState).currentValue = "0" ∧
    (calculatorReducer ⟨"0", "Error", some "÷", true⟩
      (.chooseOperation "+")).previousValue = "0" ∧
    (calculatorReducer ⟨"0", "Error", some "÷", true⟩
      (.chooseOperation "+")).previousValue ≠ "Error" := by
  refine ⟨?_, by decide, rfl, rfl, by decide, by decide⟩
  have r1 : Reachable ⟨"5", "", none, false⟩ := by
    have e1 : calculatorReducer initialState (.addDigit "5") = ⟨"5", "", none, false⟩ := by
      decide
    rw [← e1]
    exact Reachable.step Reachable.init (by decide)
  have r2 : Reachable ⟨"0", "5", some "÷", true⟩ := by
    have e2 : calculatorReducer ⟨"5", "", none, false⟩ (.chooseOperation "÷") =
        ⟨"0", "5", some "÷", true⟩ := by decide
    rw [← e2]
    exact Reachable.step r1 (by decide)
  have r3 : Reachable ⟨"0", "5", some "÷", false⟩ := by
    have e3 : calculatorReducer ⟨"0", "5", some "÷", true⟩ (.addDigit "0") =
        ⟨"0", "5", some "÷", false⟩ := by decide
    rw [← e3]
    exact Reachable.step r2 (by decide)
  have e4 : calculatorReducer ⟨"0", "5", some "÷", false⟩ (.chooseOperation "÷") =
      ⟨"0", "Error", some "÷", true⟩ := by decide
  rw [← e4]
  exact Reachable.step r3 (by decide)

/-- C5 amended: with a nonempty previous value and a pending (nonempty)
operation, ChooseOperation first evaluates the pending operation even when
the current value is `"0"` (storing the evaluator's result as the new
previous value); in particular, when the pending operation is `÷`, the
current value is `"0"`, and the previous value parses as a number, the
stored result is `"Error"`. -/
theorem choose_op_chaining (s : CalculatorState) (op payload : String)
    (hop : s.operation = some op) (hne : op ≠ "") (hprev : s.previousValue ≠ "") :
    calculatorReducer s (.chooseOperation payload) =
      { currentValue := "0", previousValue := calculate s, operation := some payload,
        overwrite := true } ∧
    (op = "÷" → s.currentValue = "0" → (∃ p, parseFloat s.previousValue = some p) →
      calculate s = "Error") := by
  constructor
  · have hc1 : ¬(s.currentValue = "0" ∧ s.previousValue = "") := fun hc => hprev hc.2
    have hc3 : truthy s.operation = true := by
      rw [hop]
      simp [truthy, hne]
    simp only [calculatorReducer, if_neg hc1, if_neg hprev, if_pos hc3]
  · rintro hdiv hcur ⟨p, hp⟩
    subst hdiv
    have hc : parseFloat s.currentValue = some ⟨0, 1⟩ := by rw [hcur]; decide
    simp only [calculate, hp, hc, hop]
    simp

/-- Witness for `choose_op_chaining`: choosing `+` while `5 ÷ 0` is pending
evaluates the division and stores `"Error"` as the previous value. -/
theorem choose_op_chaining_witness :
    calculatorReducer ⟨"0", "5", some "÷", true⟩ (.chooseOperation "+") =
      ⟨"0", "Error", some "+", true⟩ ∧
    calculate ⟨"0", "5", some "÷", true⟩ = "Error" := by
  have h := choose_op_chaining ⟨"0", "5", some "÷", true⟩ "÷" "+" rfl (by decide) (by decide)
  have herr : calculate ⟨"0", "5", some "÷", true⟩ = "Error" :=
    h.2 rfl rfl ⟨⟨5, 1⟩, by decide⟩
  exact ⟨h.1.trans (by rw [herr]), herr⟩

/-- C2 counterexample: the state reached from the initial state by
Digit "." has `currentValue = "."`, which is not a valid numeric literal
string, not `"Error"`, and not `"0"`. -/
theorem invariant_counterexample :
    Reachable ⟨".", "", none, false⟩ ∧
    isValidNumericLiteral (⟨".", "", none, false⟩ : CalculatorState).currentValue = false ∧
    (⟨".", "", none, false⟩ : CalculatorState).currentValue ≠ "Error" ∧
    (⟨".", "", none, false⟩ : CalculatorState).currentValue ≠ "0" := by
  refine ⟨?_, by decide, by decide, by decide⟩
  have h : calculatorReducer initialState (.addDigit ".") = ⟨".", "", none, false⟩ := by
    decide
  rw [← h]
  exact Reachable.step Reachable.init (by decide)

/-- C2 amended: in every reachable state, the current value is `"Error"`, a
nonempty partial entry over digits and at most one decimal point (possibly
digitless, such as `"."`), or the rendering of a computed number; and the
previous value is empty or likewise such a string (it can in particular be
`"Error"` or a partial entry). -/
theorem reachable_invariant (s : CalculatorState) (h : Reachable s) :
    isResultish s.currentValue ∧
    (s.previousValue = "" ∨ isResultish s.previousValue) :=
  ⟨(inv_reachable h).1, (inv_reachable h).2.2⟩

/-- Witness for `reachable_invariant`: the initial state. -/
theorem reachable_invariant_witness :
    isResultish initialState.currentValue ∧
    (initialState.previousValue = "" ∨ isResultish initialState.previousValue) :=
  reachable_invariant initialState Reachable.init

end AfameCalc
